import Mathlib

/-!
# group-chat: the room coordinator of `server.js`

A shallow embedding of the socket handlers of `server.js`: the two module-level
arrays `connectedUsers` and `messages`, the `connection` callback and the five
per-socket handlers it installs (`send_message`, `send_file`, `typing`,
`stop_typing`, `disconnect`).

Every handler is a function from the state before the event to the state after
it together with the list of effects it performs on the transport, in program
order.  `Date.now()` and `toLocaleTimeString` are readings of the environment;
they are carried by the event that triggers the handler.
-/

namespace GroupChat

/-- The identifier `socket.id` of a connection. -/
abbrev SocketId := String

/-- The constant `MAX_USERS` of `server.js`. -/
def MAX_USERS : Nat := 3

/-- An entry of `connectedUsers`: `{ id, username }`. -/
structure User where
  id : SocketId
  username : String
deriving DecidableEq, Repr

/-- An entry of `messages`: the `messageData` object built by `send_message`
(`{ id, username, text, timestamp }`) or by `send_file`
(`{ id, username, type, url, filename, timestamp }`). -/
inductive MessageData where
  | text (id : Nat) (username : String) (text : String) (timestamp : String)
  | file (id : Nat) (username : String) (type : String) (url : String)
      (filename : String) (timestamp : String)
deriving DecidableEq, Repr

/-- The server state: the arrays `connectedUsers` and `messages`, and the
sockets on which the `connection` callback has installed its handlers. -/
structure State where
  connectedUsers : List User
  messages : List MessageData
  listeners : List SocketId
deriving DecidableEq, Repr

/-- The state at start-up: `connectedUsers = []`, `messages = []`, no socket. -/
def State.init : State := ⟨[], [], []⟩

/-- Who receives an emitted event: `socket.emit` (that socket only),
`socket.broadcast.emit` (every connected socket but that one), `io.emit`
(every connected socket). -/
inductive Recipients where
  | socket (s : SocketId)
  | broadcast (s : SocketId)
  | all
deriving DecidableEq, Repr

/-- The outbound events with their payloads. -/
inductive Outbound where
  | room_full (message : String)
  | welcome (username : String) (users : List String) (message : String)
  | user_joined (username : String) (message : String)
  | message_history (history : List MessageData)
  | receive_message (messageData : MessageData)
  | receive_file (messageData : MessageData)
  | user_typing (username : String)
  | user_stopped_typing (payload : String)
  | user_left (username : String) (message : String) (users : List String)
deriving DecidableEq, Repr

/-- What a handler does on the transport: emit an event, or close a socket
(`socket.disconnect()`). -/
inductive Effect where
  | emit (recipients : Recipients) (event : Outbound)
  | disconnect (s : SocketId)
deriving DecidableEq, Repr

/-- The inbound events.  `now` is the value of `Date.now()` and `time` the
string of `toLocaleTimeString` read while the handler runs. -/
inductive Event where
  | connection (socket : SocketId)
  | send_message (socket : SocketId) (text : String) (now : Nat) (time : String)
  | send_file (socket : SocketId) (type : String) (url : String) (filename : String)
      (now : Nat) (time : String)
  | typing (socket : SocketId)
  | stop_typing (socket : SocketId)
  | disconnect (socket : SocketId)
deriving DecidableEq, Repr

/-- The call `arr.slice(start)` of JavaScript: a negative `start` counts from the
end, and the start index is clamped to `[0, arr.length]`. -/
def slice {α : Type} (arr : List α) (start : Int) : List α :=
  let len : Int := arr.length
  let k : Int := if start < 0 then max (len + start) 0 else min start len
  arr.drop k.toNat

/-- The call `arr.findIndex(p)`: the index of the first element satisfying `p`,
`none` standing for `-1`. -/
def findIndex {α : Type} (p : α → Bool) : List α → Option Nat
  | [] => none
  | a :: as => if p a then some 0 else (findIndex p as).map (· + 1)

/-- The string `Friend ${userNumber}`. -/
def friendName (userNumber : Nat) : String :=
  "Friend " ++ toString userNumber

/-- The callback of `io.on('connection', ...)`. -/
def onConnection (s : State) (socket : SocketId) : State × List Effect :=
  if s.connectedUsers.length ≥ MAX_USERS then
    (s, [.emit (.socket socket) (.room_full "Chat room is full (3/3 users)"),
         .disconnect socket])
  else
    let userNumber := s.connectedUsers.length + 1
    let username := friendName userNumber
    let connectedUsers := s.connectedUsers ++ [⟨socket, username⟩]
    (⟨connectedUsers, s.messages, socket :: s.listeners⟩,
     [.emit (.socket socket)
        (.welcome username (connectedUsers.map (·.username))
          ("Welcome " ++ username ++ "! There are " ++ toString connectedUsers.length
            ++ "/3 users online.")),
      .emit (.broadcast socket) (.user_joined username (username ++ " joined the chat")),
      .emit (.socket socket) (.message_history (slice s.messages (-20)))])

/-- The handler of `send_message`. -/
def onSendMessage (s : State) (socket : SocketId) (text : String) (now : Nat)
    (time : String) : State × List Effect :=
  match s.connectedUsers.find? (fun u => u.id == socket) with
  | none => (s, [])
  | some user =>
    let messageData := MessageData.text now user.username text time
    (⟨s.connectedUsers, s.messages ++ [messageData], s.listeners⟩,
     [.emit .all (.receive_message messageData)])

/-- The handler of `send_file`. -/
def onSendFile (s : State) (socket : SocketId) (type url filename : String) (now : Nat)
    (time : String) : State × List Effect :=
  match s.connectedUsers.find? (fun u => u.id == socket) with
  | none => (s, [])
  | some user =>
    let messageData := MessageData.file now user.username type url filename time
    (⟨s.connectedUsers, s.messages ++ [messageData], s.listeners⟩,
     [.emit .all (.receive_file messageData)])

/-- The handler of `typing`. -/
def onTyping (s : State) (socket : SocketId) : State × List Effect :=
  match s.connectedUsers.find? (fun u => u.id == socket) with
  | some user => (s, [.emit (.broadcast socket) (.user_typing user.username)])
  | none => (s, [])

/-- The handler of `stop_typing`. -/
def onStopTyping (s : State) (socket : SocketId) : State × List Effect :=
  (s, [.emit (.broadcast socket) (.user_stopped_typing "")])

/-- The handler of `disconnect`. -/
def onDisconnect (s : State) (socket : SocketId) : State × List Effect :=
  match findIndex (fun u => u.id == socket) s.connectedUsers with
  | none => (s, [])
  | some index =>
    match s.connectedUsers.get? index with
    | none => (s, [])
    | some user =>
      let username := user.username
      let connectedUsers := s.connectedUsers.eraseIdx index
      (⟨connectedUsers, s.messages, s.listeners⟩,
       [.emit .all (.user_left username (username ++ " left the chat")
          (connectedUsers.map (·.username)))])

/-- One inbound event.  A `connection` event always runs the `connection`
callback; any other event runs its handler when the callback has installed the
handlers on that socket (it does so on the admission path only), and is not
listened to otherwise. -/
def step (s : State) : Event → State × List Effect
  | .connection c => onConnection s c
  | .send_message c text now time =>
    if c ∈ s.listeners then onSendMessage s c text now time else (s, [])
  | .send_file c type url filename now time =>
    if c ∈ s.listeners then onSendFile s c type url filename now time else (s, [])
  | .typing c => if c ∈ s.listeners then onTyping s c else (s, [])
  | .stop_typing c => if c ∈ s.listeners then onStopTyping s c else (s, [])
  | .disconnect c => if c ∈ s.listeners then onDisconnect s c else (s, [])

/-- A sequence of inbound events, handled one at a time: the state reached and
all the effects performed, in order. -/
def run (s : State) : List Event → State × List Effect
  | [] => (s, [])
  | e :: es => ((run (step s e).1 es).1, (step s e).2 ++ (run (step s e).1 es).2)

/-- The entries carried by the `receive_message` and `receive_file` events of a
list of effects, in emission order. -/
def chatEntries : List Effect → List MessageData
  | [] => []
  | .emit _ (.receive_message m) :: es => m :: chatEntries es
  | .emit _ (.receive_file m) :: es => m :: chatEntries es
  | _ :: es => chatEntries es

/-- The `message_history` events of a list of effects, each with its recipients,
in emission order. -/
def historiesSent : List Effect → List (Recipients × List MessageData)
  | [] => []
  | .emit r (.message_history h) :: es => (r, h) :: historiesSent es
  | _ :: es => historiesSent es

/-- Along a sequence of events started in `s`, every `connection` event carries
an id that no entry of `connectedUsers` has at that moment. -/
def freshConnects (s : State) : List Event → Bool
  | [] => true
  | .connection c :: es =>
    s.connectedUsers.all (fun u => u.id != c) && freshConnects (step s (.connection c)).1 es
  | e :: es => freshConnects (step s e).1 es

/-! ## Auxiliary facts -/

theorem findIndex_eq_none {α : Type} (p : α → Bool) (l : List α)
    (h : ∀ a ∈ l, p a = false) : findIndex p l = none := by
  induction l with
  | nil => rfl
  | cons a as ih =>
    have ha : p a = false := h a (List.mem_cons_self a as)
    have has : findIndex p as = none := ih (fun b hb => h b (List.mem_cons_of_mem a hb))
    simp [findIndex, ha, has]

theorem find_eq_none_of_not_member (users : List User) (socket : SocketId)
    (h : ∀ u ∈ users, u.id ≠ socket) :
    users.find? (fun u => u.id == socket) = none := by
  rw [List.find?_eq_none]
  intro u hu
  simpa using h u hu

theorem onDisconnect_length_le (s : State) (socket : SocketId) :
    (onDisconnect s socket).1.connectedUsers.length ≤ s.connectedUsers.length := by
  unfold onDisconnect
  split
  · exact Nat.le_refl _
  · split
    · exact Nat.le_refl _
    · simp only [List.length_eraseIdx]
      split <;> omega

theorem onConnection_length_le (s : State) (socket : SocketId)
    (h : s.connectedUsers.length ≤ MAX_USERS) :
    (onConnection s socket).1.connectedUsers.length ≤ MAX_USERS := by
  unfold onConnection
  split
  · exact h
  · simp only [List.length_append, List.length_singleton]
    omega

theorem onSendMessage_users (s : State) (socket : SocketId) (text : String) (now : Nat)
    (time : String) :
    (onSendMessage s socket text now time).1.connectedUsers = s.connectedUsers := by
  unfold onSendMessage
  split <;> rfl

theorem onSendFile_users (s : State) (socket : SocketId) (type url filename : String)
    (now : Nat) (time : String) :
    (onSendFile s socket type url filename now time).1.connectedUsers = s.connectedUsers := by
  unfold onSendFile
  split <;> rfl

theorem onTyping_state (s : State) (socket : SocketId) : (onTyping s socket).1 = s := by
  unfold onTyping
  split <;> rfl

theorem step_length_le (s : State) (e : Event) (h : s.connectedUsers.length ≤ MAX_USERS) :
    (step s e).1.connectedUsers.length ≤ MAX_USERS := by
  cases e with
  | connection c => exact onConnection_length_le s c h
  | send_message c text now time =>
    simp only [step]
    split
    · rw [onSendMessage_users]; exact h
    · exact h
  | send_file c type url filename now time =>
    simp only [step]
    split
    · rw [onSendFile_users]; exact h
    · exact h
  | typing c =>
    simp only [step]
    split
    · rw [onTyping_state]; exact h
    · exact h
  | stop_typing c =>
    simp only [step]
    split <;> exact h
  | disconnect c =>
    simp only [step]
    split
    · exact Nat.le_trans (onDisconnect_length_le s c) h
    · exact h

theorem run_length_le (evs : List Event) (s : State)
    (h : s.connectedUsers.length ≤ MAX_USERS) :
    (run s evs).1.connectedUsers.length ≤ MAX_USERS := by
  induction evs generalizing s with
  | nil => exact h
  | cons e es ih => exact ih (step s e).1 (step_length_le s e h)

/-! ## The claims -/

/-- C1: for every finite sequence of events (connect and disconnect events with
any connection ids, and any other event) applied to the initial empty room, the
number of entries of `connectedUsers` is at most `MAX_USERS = 3` after every
event of the sequence, that is after every initial segment `evs.take k`. -/
theorem registry_size_le_max_users (evs : List Event) (k : Nat) :
    (run State.init (evs.take k)).1.connectedUsers.length ≤ MAX_USERS ∧ MAX_USERS = 3 :=
  ⟨run_length_le (evs.take k) State.init (by decide), rfl⟩

/-- The two effects of the room-full branch of the `connection` callback. -/
def roomFullEffects (socket : SocketId) : List Effect :=
  [.emit (.socket socket) (.room_full "Chat room is full (3/3 users)"), .disconnect socket]

theorem run_connections_full (sockets : List SocketId) (s : State)
    (h : s.connectedUsers.length = MAX_USERS) :
    run s (sockets.map Event.connection) = (s, (sockets.map roomFullEffects).flatten) := by
  induction sockets with
  | nil => rfl
  | cons c cs ih =>
    have hc : step s (.connection c) = (s, roomFullEffects c) := by
      simp [step, onConnection, h, roomFullEffects]
    simp only [List.map_cons, run, hc, ih, List.flatten_cons]

/-- C3: in a state whose `connectedUsers` holds `MAX_USERS` entries, a connect
event emits exactly one outbound event, `room_full`, to the connecting socket
only, then closes that socket, and leaves the state (`connectedUsers` and
`messages`) unchanged; any number of consecutive connect attempts leaves the
state unchanged and yields that same pair of effects for each attempt. -/
theorem connect_on_full_room (s : State) (socket : SocketId)
    (h : s.connectedUsers.length = MAX_USERS) :
    onConnection s socket
        = (s, [.emit (.socket socket) (.room_full "Chat room is full (3/3 users)"),
               .disconnect socket])
      ∧ step s (.connection socket) = onConnection s socket
      ∧ ∀ sockets : List SocketId,
          run s (sockets.map Event.connection)
            = (s, (sockets.map (fun c => [Effect.emit (.socket c)
                    (.room_full "Chat room is full (3/3 users)"), .disconnect c])).flatten) := by
  refine ⟨by simp [onConnection, h], rfl, fun sockets => ?_⟩
  exact run_connections_full sockets s h

/-- C3, at a concrete full room: a fourth and a fifth connect are both rejected. -/
theorem connect_on_full_room_witness :
    (⟨[⟨"a", "Friend 1"⟩, ⟨"b", "Friend 2"⟩, ⟨"c", "Friend 3"⟩], [], ["c", "b", "a"]⟩
        : State).connectedUsers.length = MAX_USERS
      ∧ run ⟨[⟨"a", "Friend 1"⟩, ⟨"b", "Friend 2"⟩, ⟨"c", "Friend 3"⟩], [], ["c", "b", "a"]⟩
          [.connection "d", .connection "e"]
        = (⟨[⟨"a", "Friend 1"⟩, ⟨"b", "Friend 2"⟩, ⟨"c", "Friend 3"⟩], [], ["c", "b", "a"]⟩,
           [.emit (.socket "d") (.room_full "Chat room is full (3/3 users)"), .disconnect "d",
            .emit (.socket "e") (.room_full "Chat room is full (3/3 users)"),
            .disconnect "e"]) :=
  ⟨by decide,
   (connect_on_full_room
      ⟨[⟨"a", "Friend 1"⟩, ⟨"b", "Friend 2"⟩, ⟨"c", "Friend 3"⟩], [], ["c", "b", "a"]⟩
      "d" (by decide)).2.2 ["d", "e"]⟩

theorem run_disconnects_nonmember (n : Nat) (s : State) (socket : SocketId)
    (h : ∀ u ∈ s.connectedUsers, u.id ≠ socket) :
    run s (List.replicate n (Event.disconnect socket)) = (s, []) := by
  have hd : step s (.disconnect socket) = (s, []) := by
    have hf : findIndex (fun u => u.id == socket) s.connectedUsers = none :=
      findIndex_eq_none _ _ (fun u hu => by simpa using h u hu)
    simp only [step, onDisconnect, hf]
    split <;> rfl
  induction n with
  | zero => rfl
  | succ n ih => simp only [List.replicate_succ, run, hd, ih, List.append_nil]

/-- C6: for every state and every connection id that no entry of `connectedUsers`
has, the handlers of `disconnect`, `send_message`, `send_file` and `typing`
leave the state unchanged and emit nothing (in particular no `user_left`); the
same holds when the events go through the dispatcher, and any number of repeated
disconnects of that id is a no-op. -/
theorem non_member_events_dropped (s : State) (socket : SocketId)
    (h : ∀ u ∈ s.connectedUsers, u.id ≠ socket)
    (text type url filename time : String) (now : Nat) :
    onDisconnect s socket = (s, [])
      ∧ onSendMessage s socket text now time = (s, [])
      ∧ onSendFile s socket type url filename now time = (s, [])
      ∧ onTyping s socket = (s, [])
      ∧ step s (.disconnect socket) = (s, [])
      ∧ step s (.send_message socket text now time) = (s, [])
      ∧ step s (.send_file socket type url filename now time) = (s, [])
      ∧ step s (.typing socket) = (s, [])
      ∧ ∀ n : Nat, run s (List.replicate n (Event.disconnect socket)) = (s, []) := by
  have hf : findIndex (fun u => u.id == socket) s.connectedUsers = none :=
    findIndex_eq_none _ _ (fun u hu => by simpa using h u hu)
  have hfind := find_eq_none_of_not_member s.connectedUsers socket h
  have h1 : onDisconnect s socket = (s, []) := by simp only [onDisconnect, hf]
  have h2 : onSendMessage s socket text now time = (s, []) := by
    simp only [onSendMessage, hfind]
  have h3 : onSendFile s socket type url filename now time = (s, []) := by
    simp only [onSendFile, hfind]
  have h4 : onTyping s socket = (s, []) := by simp only [onTyping, hfind]
  refine ⟨h1, h2, h3, h4, ?_, ?_, ?_, ?_, fun n => run_disconnects_nonmember n s socket h⟩
  · simp only [step, h1]; split <;> rfl
  · simp only [step, h2]; split <;> rfl
  · simp only [step, h3]; split <;> rfl
  · simp only [step, h4]; split <;> rfl

/-- C6, at a concrete state: `"b"` has left, `"a"` is still a member. -/
theorem non_member_events_dropped_witness :
    (∀ u ∈ (⟨[⟨"a", "Friend 1"⟩], [], ["b", "a"]⟩ : State).connectedUsers, u.id ≠ "b")
      ∧ step ⟨[⟨"a", "Friend 1"⟩], [], ["b", "a"]⟩ (.disconnect "b")
          = (⟨[⟨"a", "Friend 1"⟩], [], ["b", "a"]⟩, []) :=
  ⟨by decide,
   (non_member_events_dropped ⟨[⟨"a", "Friend 1"⟩], [], ["b", "a"]⟩ "b" (by decide)
      "" "" "" "" "" 0).2.2.2.2.1⟩

theorem find_some_of_member (users : List User) (socket : SocketId)
    (h : ∃ u ∈ users, u.id = socket) :
    ∃ user, users.find? (fun u => u.id == socket) = some user
      ∧ user ∈ users ∧ user.id = socket := by
  cases hf : users.find? (fun u => u.id == socket) with
  | none =>
    obtain ⟨u, hu, hid⟩ := h
    rw [List.find?_eq_none] at hf
    exact absurd (by simpa using hid) (hf u hu)
  | some user =>
    exact ⟨user, rfl, List.mem_of_find?_eq_some hf, by simpa using List.find?_some hf⟩

/-- C4: for every state and every `send_message` with text `text` from a socket
that is a member, the new `messages` is the old one with exactly one entry
appended at the end; that entry carries the sender's username (the entry of
`connectedUsers` that `find` returns for the socket id) and the given text;
`connectedUsers` is unchanged; and exactly one effect is performed, a
`receive_message` carrying that same entry emitted with `io.emit`, that is to
all connections, the sender included. -/
theorem send_message_from_member (s : State) (socket : SocketId) (text : String)
    (now : Nat) (time : String) (h : ∃ u ∈ s.connectedUsers, u.id = socket) :
    ∃ user entry,
      s.connectedUsers.find? (fun u => u.id == socket) = some user
        ∧ user ∈ s.connectedUsers ∧ user.id = socket
        ∧ entry = MessageData.text now user.username text time
        ∧ (onSendMessage s socket text now time).1.messages = s.messages ++ [entry]
        ∧ (onSendMessage s socket text now time).1.connectedUsers = s.connectedUsers
        ∧ (onSendMessage s socket text now time).2 = [.emit .all (.receive_message entry)]
        ∧ (socket ∈ s.listeners →
            step s (.send_message socket text now time)
              = (⟨s.connectedUsers, s.messages ++ [entry], s.listeners⟩,
                 [.emit .all (.receive_message entry)])) := by
  obtain ⟨user, hf, hmem, hid⟩ := find_some_of_member s.connectedUsers socket h
  refine ⟨user, MessageData.text now user.username text time, hf, hmem, hid, rfl, ?_, ?_, ?_, ?_⟩
  · simp only [onSendMessage, hf]
  · simp only [onSendMessage, hf]
  · simp only [onSendMessage, hf]
  · intro hl
    simp only [step, if_pos hl, onSendMessage, hf]

/-- C4, at the scenario of the specification: `Friend 1` sends `hi` in a room of
three. -/
theorem send_message_from_member_witness :
    (∃ u ∈ (⟨[⟨"c1", "Friend 1"⟩, ⟨"c2", "Friend 2"⟩, ⟨"c3", "Friend 3"⟩], [],
          ["c3", "c2", "c1"]⟩ : State).connectedUsers, u.id = "c1")
      ∧ ∃ user entry,
          user ∈ [(⟨"c1", "Friend 1"⟩ : User), ⟨"c2", "Friend 2"⟩, ⟨"c3", "Friend 3"⟩]
            ∧ user.id = "c1"
            ∧ entry = MessageData.text 7 user.username "hi" "10:30"
            ∧ (onSendMessage ⟨[⟨"c1", "Friend 1"⟩, ⟨"c2", "Friend 2"⟩, ⟨"c3", "Friend 3"⟩], [],
                ["c3", "c2", "c1"]⟩ "c1" "hi" 7 "10:30").2
              = [.emit .all (.receive_message entry)] := by
  refine ⟨⟨⟨"c1", "Friend 1"⟩, by decide, rfl⟩, ?_⟩
  obtain ⟨user, entry, _, hmem, hid, hentry, _, _, hout, _⟩ :=
    send_message_from_member
      ⟨[⟨"c1", "Friend 1"⟩, ⟨"c2", "Friend 2"⟩, ⟨"c3", "Friend 3"⟩], [], ["c3", "c2", "c1"]⟩
      "c1" "hi" 7 "10:30" ⟨⟨"c1", "Friend 1"⟩, by decide, rfl⟩
  exact ⟨user, entry, hmem, hid, hentry, hout⟩

theorem slice_neg_twenty {α : Type} (l : List α) :
    slice l (-20) = l.drop (l.length - 20) := by
  unfold slice
  simp only [show ((-20 : Int) < 0) from by decide, if_true]
  congr 1
  omega

/-- C5: for every state with message log `L` and fewer than `MAX_USERS` members,
the `connection` callback sends exactly one `message_history`, to the admitted
socket, and it carries the last `min 20 |L|` entries of `L` in the order of `L`
(`L` is some older entries followed by the history); it is the whole log when
`|L| ≤ 20` and empty when `L` is empty; admission does not change `L`. -/
theorem history_replay_on_admission (s : State) (socket : SocketId)
    (h : s.connectedUsers.length < MAX_USERS) :
    historiesSent (onConnection s socket).2
        = [(.socket socket, s.messages.drop (s.messages.length - 20))]
      ∧ (s.messages.drop (s.messages.length - 20)).length = min 20 s.messages.length
      ∧ (∃ older, older.length = s.messages.length - 20
          ∧ s.messages = older ++ s.messages.drop (s.messages.length - 20))
      ∧ (s.messages.length ≤ 20 → s.messages.drop (s.messages.length - 20) = s.messages)
      ∧ (s.messages = [] → s.messages.drop (s.messages.length - 20) = [])
      ∧ (onConnection s socket).1.messages = s.messages := by
  have hnot : ¬ s.connectedUsers.length ≥ MAX_USERS := by omega
  refine ⟨?_, ?_, ?_, ?_, ?_, ?_⟩
  · simp only [onConnection, if_neg hnot, historiesSent, slice_neg_twenty]
  · simp only [List.length_drop]
    omega
  · refine ⟨s.messages.take (s.messages.length - 20), ?_, (List.take_append_drop _ _).symm⟩
    simp only [List.length_take]
    omega
  · intro hle
    rw [Nat.sub_eq_zero_of_le hle, List.drop_zero]
  · intro hnil
    rw [hnil]
    rfl
  · simp only [onConnection, if_neg hnot]

/-- C5, at a concrete state: a log of two entries is replayed whole. -/
theorem history_replay_on_admission_witness :
    (⟨[⟨"a", "Friend 1"⟩], [.text 1 "Friend 1" "x" "10:00", .text 2 "Friend 1" "y" "10:01"],
        ["a"]⟩ : State).connectedUsers.length < MAX_USERS
      ∧ historiesSent (onConnection ⟨[⟨"a", "Friend 1"⟩],
          [.text 1 "Friend 1" "x" "10:00", .text 2 "Friend 1" "y" "10:01"], ["a"]⟩ "b").2
        = [(.socket "b", [.text 1 "Friend 1" "x" "10:00", .text 2 "Friend 1" "y" "10:01"])] :=
  ⟨by decide,
   (history_replay_on_admission ⟨[⟨"a", "Friend 1"⟩],
      [.text 1 "Friend 1" "x" "10:00", .text 2 "Friend 1" "y" "10:01"], ["a"]⟩ "b"
      (by decide)).1⟩

/-- C8: for every state with `n < MAX_USERS` members, a connect event from socket
`C` appends the single entry `{id: C, username: "Friend " + (n+1)}` at the end of
`connectedUsers` (earlier entries and `messages` unchanged) and performs, in this
order: `welcome` to `C` with that username and the usernames of all members, the
new one included, in insertion order; `user_joined` with that username to all
other connections; `message_history` to `C`.  From the empty room three
successive connects yield `Friend 1`, `Friend 2`, `Friend 3` with welcome lists
`[Friend 1]`, `[Friend 1, Friend 2]`, `[Friend 1, Friend 2, Friend 3]`. -/
theorem connect_admitted (s : State) (socket : SocketId)
    (h : s.connectedUsers.length < MAX_USERS) :
    (onConnection s socket
        = (⟨s.connectedUsers ++ [⟨socket, "Friend " ++ toString (s.connectedUsers.length + 1)⟩],
            s.messages, socket :: s.listeners⟩,
           [.emit (.socket socket)
              (.welcome ("Friend " ++ toString (s.connectedUsers.length + 1))
                (s.connectedUsers.map (fun u => u.username)
                  ++ ["Friend " ++ toString (s.connectedUsers.length + 1)])
                ("Welcome " ++ ("Friend " ++ toString (s.connectedUsers.length + 1))
                  ++ "! There are " ++ toString (s.connectedUsers.length + 1)
                  ++ "/3 users online.")),
            .emit (.broadcast socket)
              (.user_joined ("Friend " ++ toString (s.connectedUsers.length + 1))
                ("Friend " ++ toString (s.connectedUsers.length + 1) ++ " joined the chat")),
            .emit (.socket socket) (.message_history (slice s.messages (-20)))]))
      ∧ run State.init [.connection "c1", .connection "c2", .connection "c3"]
        = (⟨[⟨"c1", "Friend 1"⟩, ⟨"c2", "Friend 2"⟩, ⟨"c3", "Friend 3"⟩], [],
            ["c3", "c2", "c1"]⟩,
           [.emit (.socket "c1")
              (.welcome "Friend 1" ["Friend 1"] "Welcome Friend 1! There are 1/3 users online."),
            .emit (.broadcast "c1") (.user_joined "Friend 1" "Friend 1 joined the chat"),
            .emit (.socket "c1") (.message_history []),
            .emit (.socket "c2")
              (.welcome "Friend 2" ["Friend 1", "Friend 2"]
                "Welcome Friend 2! There are 2/3 users online."),
            .emit (.broadcast "c2") (.user_joined "Friend 2" "Friend 2 joined the chat"),
            .emit (.socket "c2") (.message_history []),
            .emit (.socket "c3")
              (.welcome "Friend 3" ["Friend 1", "Friend 2", "Friend 3"]
                "Welcome Friend 3! There are 3/3 users online."),
            .emit (.broadcast "c3") (.user_joined "Friend 3" "Friend 3 joined the chat"),
            .emit (.socket "c3") (.message_history [])]) := by
  have hnot : ¬ s.connectedUsers.length ≥ MAX_USERS := by omega
  refine ⟨?_, by decide⟩
  simp only [onConnection, if_neg hnot, friendName, List.map_append, List.map_cons,
    List.map_nil, List.length_append, List.length_singleton]

/-- C8, at a concrete state: a second socket joins a room of one. -/
theorem connect_admitted_witness :
    (⟨[⟨"c1", "Friend 1"⟩], [], ["c1"]⟩ : State).connectedUsers.length < MAX_USERS
      ∧ (onConnection ⟨[⟨"c1", "Friend 1"⟩], [], ["c1"]⟩ "c2").1.connectedUsers
        = [⟨"c1", "Friend 1"⟩, ⟨"c2", "Friend 2"⟩] :=
  ⟨by decide,
   congrArg (fun r => r.1.connectedUsers)
     (connect_admitted ⟨[⟨"c1", "Friend 1"⟩], [], ["c1"]⟩ "c2" (by decide)).1⟩

theorem get_at_split {α : Type} (l1 : List α) (a : α) (l2 : List α) :
    (l1 ++ a :: l2).get? l1.length = some a := by
  induction l1 with
  | nil => rfl
  | cons x xs ih => simpa using ih

theorem eraseIdx_at_split {α : Type} (l1 : List α) (a : α) (l2 : List α) :
    (l1 ++ a :: l2).eraseIdx l1.length = l1 ++ l2 := by
  induction l1 with
  | nil => rfl
  | cons x xs ih => simpa using ih

theorem onDisconnect_split (s : State) (socket : SocketId) (l1 l2 : List User) (a : User)
    (hl : s.connectedUsers = l1 ++ a :: l2) (ha : a.id = socket)
    (hl1 : ∀ b ∈ l1, b.id ≠ socket) :
    onDisconnect s socket
      = (⟨l1 ++ l2, s.messages, s.listeners⟩,
         [.emit .all (.user_left a.username (a.username ++ " left the chat")
            ((l1 ++ l2).map (fun u => u.username)))]) := by
  have hf : findIndex (fun u => u.id == socket) s.connectedUsers = some l1.length := by
    rw [hl]
    clear hl
    induction l1 with
    | nil => simp [findIndex, ha]
    | cons x xs ih =>
      have hx : x.id ≠ socket := hl1 x (List.mem_cons_self x xs)
      have hxs := ih (fun b hb => hl1 b (List.mem_cons_of_mem x hb))
      simp [findIndex, hx, hxs]
  rw [hl] at hf
  simp only [onDisconnect, hl, hf, get_at_split, eraseIdx_at_split]

/-- C7: in a state whose connection ids are pairwise distinct and in which socket
`C` is a member with entry `user`, a disconnect of `C` removes exactly that
entry (`connectedUsers = l1 ++ user :: l2` becomes `l1 ++ l2`, so the size
decreases by one, the other entries keep their relative order, and no remaining
entry has id `C`), leaves `messages` unchanged, and performs exactly one effect:
`user_left` emitted with `io.emit`, carrying the username of `user` and the
usernames of the remaining members in registry order.  From
`[Friend 1, Friend 2, Friend 3]`, the second socket leaving yields users
`[Friend 1, Friend 3]`, size 2, and a following connect is admitted. -/
theorem disconnect_of_member (s : State) (socket : SocketId) (user : User)
    (hnodup : (s.connectedUsers.map (fun u => u.id)).Nodup)
    (hmem : user ∈ s.connectedUsers) (hid : user.id = socket) :
    (∃ l1 l2, s.connectedUsers = l1 ++ user :: l2
        ∧ (∀ u ∈ l1 ++ l2, u.id ≠ socket)
        ∧ onDisconnect s socket
          = (⟨l1 ++ l2, s.messages, s.listeners⟩,
             [.emit .all (.user_left user.username (user.username ++ " left the chat")
                ((l1 ++ l2).map (fun u => u.username)))]))
      ∧ (onDisconnect s socket).1.connectedUsers.length + 1 = s.connectedUsers.length
      ∧ onDisconnect
          ⟨[⟨"c1", "Friend 1"⟩, ⟨"c2", "Friend 2"⟩, ⟨"c3", "Friend 3"⟩], [], ["c3", "c2", "c1"]⟩
          "c2"
        = (⟨[⟨"c1", "Friend 1"⟩, ⟨"c3", "Friend 3"⟩], [], ["c3", "c2", "c1"]⟩,
           [.emit .all (.user_left "Friend 2" "Friend 2 left the chat"
              ["Friend 1", "Friend 3"])])
      ∧ (onConnection ⟨[⟨"c1", "Friend 1"⟩, ⟨"c3", "Friend 3"⟩], [], ["c3", "c2", "c1"]⟩
          "c4").1.connectedUsers
        = [⟨"c1", "Friend 1"⟩, ⟨"c3", "Friend 3"⟩, ⟨"c4", "Friend 3"⟩] := by
  obtain ⟨l1, l2, hl⟩ := List.append_of_mem hmem
  have hnd : (l1.map (fun u => u.id) ++ socket :: l2.map (fun u => u.id)).Nodup := by
    simpa [hl, hid] using hnodup
  have hrest : ∀ u ∈ l1 ++ l2, u.id ≠ socket := by
    intro u hu hu_id
    have hin : socket ∈ l1.map (fun u => u.id) ++ l2.map (fun u => u.id) := by
      rw [← List.map_append]
      exact List.mem_map.mpr ⟨u, hu, hu_id⟩
    have hno := (List.nodup_middle.mp hnd)
    rw [List.nodup_cons] at hno
    exact hno.1 hin
  have hd := onDisconnect_split s socket l1 l2 user hl hid
    (fun b hb => hrest b (List.mem_append_left l2 hb))
  refine ⟨⟨l1, l2, hl, hrest, hd⟩, ?_, by decide, by decide⟩
  rw [hd, hl]
  simp only [List.length_append, List.length_cons]
  omega

/-- C7, at the scenario of the specification: the second of three members
leaves. -/
theorem disconnect_of_member_witness :
    ((⟨[⟨"c1", "Friend 1"⟩, ⟨"c2", "Friend 2"⟩, ⟨"c3", "Friend 3"⟩], [],
        ["c3", "c2", "c1"]⟩ : State).connectedUsers.map (fun u => u.id)).Nodup
      ∧ (⟨"c2", "Friend 2"⟩ : User)
          ∈ (⟨[⟨"c1", "Friend 1"⟩, ⟨"c2", "Friend 2"⟩, ⟨"c3", "Friend 3"⟩], [],
              ["c3", "c2", "c1"]⟩ : State).connectedUsers
      ∧ (onDisconnect
          ⟨[⟨"c1", "Friend 1"⟩, ⟨"c2", "Friend 2"⟩, ⟨"c3", "Friend 3"⟩], [], ["c3", "c2", "c1"]⟩
          "c2").1.connectedUsers.length + 1 = 3 :=
  ⟨by decide, by decide,
   (disconnect_of_member
      ⟨[⟨"c1", "Friend 1"⟩, ⟨"c2", "Friend 2"⟩, ⟨"c3", "Friend 3"⟩], [], ["c3", "c2", "c1"]⟩
      "c2" ⟨"c2", "Friend 2"⟩ (by decide) (by decide) rfl).2.1⟩

theorem chatEntries_append (a b : List Effect) :
    chatEntries (a ++ b) = chatEntries a ++ chatEntries b := by
  induction a with
  | nil => rfl
  | cons x xs ih =>
    cases x with
    | disconnect c => simpa [chatEntries] using ih
    | emit r ev => cases ev <;> simpa [chatEntries] using ih

theorem step_messages (s : State) (e : Event) :
    (step s e).1.messages = s.messages ++ chatEntries (step s e).2 := by
  cases e with
  | connection c =>
    simp only [step, onConnection]
    split <;> simp [chatEntries]
  | send_message c text now time =>
    simp only [step, onSendMessage]
    split
    · split <;> simp [chatEntries]
    · simp [chatEntries]
  | send_file c type url filename now time =>
    simp only [step, onSendFile]
    split
    · split <;> simp [chatEntries]
    · simp [chatEntries]
  | typing c =>
    simp only [step, onTyping]
    split
    · split <;> simp [chatEntries]
    · simp [chatEntries]
  | stop_typing c =>
    simp only [step, onStopTyping]
    split <;> simp [chatEntries]
  | disconnect c =>
    simp only [step, onDisconnect]
    split
    · split
      · simp [chatEntries]
      · split <;> simp [chatEntries]
    · simp [chatEntries]

theorem run_messages (evs : List Event) (s : State) :
    (run s evs).1.messages = s.messages ++ chatEntries (run s evs).2 := by
  induction evs generalizing s with
  | nil => simp [run, chatEntries]
  | cons e es ih =>
    simp only [run]
    rw [ih (step s e).1, step_messages s e, chatEntries_append, List.append_assoc]

theorem run_take_messages (evs : List Event) (s : State) (k : Nat) :
    ∃ added, (run s (evs.take (k + 1))).1.messages
      = (run s (evs.take k)).1.messages ++ added := by
  induction evs generalizing s k with
  | nil => exact ⟨[], by simp [run]⟩
  | cons e es ih =>
    cases k with
    | zero =>
      refine ⟨chatEntries (step s e).2, ?_⟩
      simp only [Nat.zero_add, List.take_succ_cons, List.take_zero, run]
      exact step_messages s e
    | succ k =>
      simp only [List.take_succ_cons, run]
      exact ih (step s e).1 k

/-- C9: for every finite sequence of events (connect, `send_message`,
`send_file`, `typing`, `stop_typing`, disconnect) applied to the initial empty
room, the message log is only ever extended at its end (the log after the first
`k` events is an initial segment of the log after the first `k + 1` events, and
every single event in any state only appends), and the entries carried by the
`receive_message` and `receive_file` events, in emission order, are the final
message log. -/
theorem log_order_is_broadcast_order (evs : List Event) :
    (∀ k : Nat, ∃ added,
        (run State.init (evs.take (k + 1))).1.messages
          = (run State.init (evs.take k)).1.messages ++ added)
      ∧ (∀ (s : State) (e : Event), ∃ added, (step s e).1.messages = s.messages ++ added)
      ∧ chatEntries (run State.init evs).2 = (run State.init evs).1.messages := by
  refine ⟨fun k => run_take_messages evs State.init k,
    fun s e => ⟨_, step_messages s e⟩, ?_⟩
  rw [run_messages evs State.init]
  rfl

theorem onDisconnect_sublist (s : State) (socket : SocketId) :
    (onDisconnect s socket).1.connectedUsers.Sublist s.connectedUsers := by
  unfold onDisconnect
  split
  · exact List.Sublist.refl _
  · split
    · exact List.Sublist.refl _
    · exact List.eraseIdx_sublist _ _

theorem step_ids_nodup (s : State) (e : Event)
    (hfresh : ∀ c, e = .connection c → ∀ u ∈ s.connectedUsers, u.id ≠ c)
    (hnd : (s.connectedUsers.map (fun u => u.id)).Nodup) :
    ((step s e).1.connectedUsers.map (fun u => u.id)).Nodup := by
  cases e with
  | connection c =>
    simp only [step, onConnection]
    split
    · exact hnd
    · simp only [List.map_append, List.map_cons, List.map_nil]
      refine List.Nodup.append hnd (List.nodup_singleton c) ?_
      intro x hx hxc
      rw [List.mem_singleton] at hxc
      obtain ⟨u, hu, hux⟩ := List.mem_map.mp hx
      exact hfresh c rfl u hu (hux.trans hxc)
  | send_message c text now time =>
    simp only [step]
    split
    · rw [onSendMessage_users]; exact hnd
    · exact hnd
  | send_file c type url filename now time =>
    simp only [step]
    split
    · rw [onSendFile_users]; exact hnd
    · exact hnd
  | typing c =>
    simp only [step]
    split
    · rw [onTyping_state]; exact hnd
    · exact hnd
  | stop_typing c =>
    simp only [step]
    split <;> exact hnd
  | disconnect c =>
    simp only [step]
    split
    · exact List.Nodup.sublist ((onDisconnect_sublist s c).map _) hnd
    · exact hnd

theorem run_take_ids_nodup (evs : List Event) (s : State) (k : Nat)
    (hfresh : freshConnects s evs = true)
    (hnd : (s.connectedUsers.map (fun u => u.id)).Nodup) :
    ((run s (evs.take k)).1.connectedUsers.map (fun u => u.id)).Nodup := by
  induction evs generalizing s k with
  | nil => simpa [run] using hnd
  | cons e es ih =>
    cases k with
    | zero => simpa [run] using hnd
    | succ k =>
      simp only [List.take_succ_cons, run]
      have hstep : (∀ c, e = .connection c → ∀ u ∈ s.connectedUsers, u.id ≠ c)
          ∧ freshConnects (step s e).1 es = true := by
        cases e with
        | connection c =>
          simp only [freshConnects, Bool.and_eq_true, List.all_eq_true] at hfresh
          refine ⟨?_, hfresh.2⟩
          intro c0 hc0 u hu
          injection hc0 with hc0
          subst hc0
          simpa using hfresh.1 u hu
        | send_message c text now time => exact ⟨fun c0 hc0 => Event.noConfusion hc0, hfresh⟩
        | send_file c type url filename now time => exact ⟨fun c0 hc0 => Event.noConfusion hc0, hfresh⟩
        | typing c => exact ⟨fun c0 hc0 => Event.noConfusion hc0, hfresh⟩
        | stop_typing c => exact ⟨fun c0 hc0 => Event.noConfusion hc0, hfresh⟩
        | disconnect c => exact ⟨fun c0 hc0 => Event.noConfusion hc0, hfresh⟩
      exact ih (step s e).1 k hstep.2 (step_ids_nodup s e hstep.1 hnd)

theorem countP_id_eq_one (users : List User)
    (hnd : (users.map (fun u => u.id)).Nodup) (u : User) (hu : u ∈ users) :
    users.countP (fun v => v.id == u.id) = 1 := by
  have hmem : u.id ∈ users.map (fun u => u.id) := List.mem_map.mpr ⟨u, hu, rfl⟩
  have hc := List.count_eq_one_of_mem hnd hmem
  rw [List.count, List.countP_map] at hc
  exact hc

/-- C10: for every sequence of connect, disconnect, message and typing events
applied to the initial empty room in which each connect event carries an id that
no entry of `connectedUsers` has at that moment, in every state reached (after
every initial segment `evs.take k`) the ids of the entries of `connectedUsers`
are pairwise distinct, so the id of each member occurs in exactly one entry. -/
theorem connection_ids_unique (evs : List Event) (k : Nat)
    (h : freshConnects State.init evs = true) :
    ((run State.init (evs.take k)).1.connectedUsers.map (fun u => u.id)).Nodup
      ∧ ∀ u ∈ (run State.init (evs.take k)).1.connectedUsers,
          (run State.init (evs.take k)).1.connectedUsers.countP (fun v => v.id == u.id) = 1 := by
  have hnd := run_take_ids_nodup evs State.init k h (by simp [State.init])
  exact ⟨hnd, fun u hu => countP_id_eq_one _ hnd u hu⟩

/-- C10, at a concrete sequence: two sockets join, one writes and leaves, a third
joins. -/
theorem connection_ids_unique_witness :
    freshConnects State.init
        [.connection "c1", .connection "c2", .send_message "c1" "hi" 7 "10:30",
         .disconnect "c1", .connection "c3"] = true
      ∧ ((run State.init
          ([Event.connection "c1", .connection "c2", .send_message "c1" "hi" 7 "10:30",
            .disconnect "c1", .connection "c3"].take 5)).1.connectedUsers.map
            (fun u => u.id)).Nodup :=
  ⟨by decide,
   (connection_ids_unique
      [.connection "c1", .connection "c2", .send_message "c1" "hi" 7 "10:30",
       .disconnect "c1", .connection "c3"] 5 (by decide)).1⟩

/-- C2 fails on the code: with fresh connection ids, two sockets join, the first
one leaves and a third joins; the registry size is then 1, so the newcomer is
named `Friend 2`, the name the remaining member already has. -/
theorem username_reused_after_departure :
    freshConnects State.init
        [.connection "c1", .connection "c2", .disconnect "c1", .connection "c3"] = true
      ∧ (run State.init
          [.connection "c1", .connection "c2", .disconnect "c1", .connection "c3"]).1.connectedUsers
        = [⟨"c2", "Friend 2"⟩, ⟨"c3", "Friend 2"⟩]
      ∧ ¬ ((run State.init
          [.connection "c1", .connection "c2", .disconnect "c1",
           .connection "c3"]).1.connectedUsers.map (fun u => u.username)).Nodup := by
  refine ⟨by decide, by decide, by decide⟩

end GroupChat
